import Mathlib

/-!
Shallow embedding of the Tsanghi documentation crawler
(`crawl_tsanghi_docs.py`) and proofs about its specified behaviour.

Python strings are modelled as `String` / `List Char`; JSON values as an
inductive `Json`; the filesystem state seen by the housekeeping sweep as a
list of named files.  Machine-level concerns (network, browser) are
abstracted behind scripted outcome sequences, exactly as the orchestrator
observes them.
-/

namespace Crawler

/-! ### Index generator (`generate_indices`, lines 28–34) -/

/-- Embeds `generate_indices`: the nested loops
`for i in range(2, 6): for j in range(1, 6): for k in range(1, 6)`
appending `f"{i}-{j}-{k}"`. -/
def generate_indices : List String :=
  (List.range' 2 4).flatMap (fun i =>
    (List.range' 1 5).flatMap (fun j =>
      (List.range' 1 5).map (fun k => s!"{i}-{j}-{k}")))

/-- The key of one page index, `f"{i}-{j}-{k}"`. -/
def indexKey (i j k : Nat) : String := s!"{i}-{j}-{k}"

/-- Decision procedure for the regular expression `^[2-5]-[1-5]-[1-5]$`. -/
def matchesKey (s : String) : Bool :=
  match s.toList with
  | [i, c₁, j, c₂, k] =>
      c₁ = '-' && c₂ = '-' &&
      ('2' ≤ i && i ≤ '5') && ('1' ≤ j && j ≤ '5') && ('1' ≤ k && k ≤ '5')
  | _ => false

/-! ### Substring containment (Python's `in` operator on `str`) -/

/-- `containsSub pat s` is Python's `pat in s` on strings (lists of chars). -/
def containsSub (pat : List Char) : List Char → Bool
  | [] => pat.isEmpty
  | c :: rest => pat.isPrefixOf (c :: rest) || containsSub pat rest

/-! ### Outcome classification of an unsuccessful render
(`crawl_doc_page`, lines 248–254) -/

/-- Classification of a finished render attempt, as the orchestrator sees
it. -/
inductive FetchOutcome where
  | emptyPage
  | failure
  deriving DecidableEq

/-- The keyword list of line 249 of `crawl_doc_page`. -/
def emptyKeywords : List String :=
  ["404", "not found", "empty", "timeout", "wait condition failed"]

/-- Python's `str.lower()`, restricted to the ASCII case mapping (all
keywords scanned for are ASCII). -/
def lowerStr (s : String) : String := ⟨s.toList.map Char.toLower⟩

/-- Embeds the `else` branch of `crawl_doc_page` (lines 248–254): an
unsuccessful result whose `error_message` is truthy and contains one of
`emptyKeywords` (after `.lower()`) is reported as an empty page
(`{"is_empty_page": True}`); every other unsuccessful result returns
`None`, i.e. a retryable failure. -/
def classifyUnsuccessful (errorMessage : Option String) : FetchOutcome :=
  match errorMessage with
  | none => .failure
  | some m =>
      if m ≠ "" &&
          emptyKeywords.any (fun kw => containsSub kw.toList (lowerStr m).toList)
        then .emptyPage else .failure

/-! ### Text cleanup (`clean_text` lines 259–265, `clean_html` lines
570–580, `clean_python_example` lines 582–597) -/

/-- Whitespace characters recognised by Python's `str.split()` and the
regex `\s`, restricted to the characters these inputs can contain (ASCII
whitespace plus the no-break space produced by unescaping `&nbsp;`). -/
def wsChar (c : Char) : Bool :=
  c = ' ' || c = '\t' || c = '\n' || c = '\r' ||
  c = Char.ofNat 11 || c = Char.ofNat 12 || c = Char.ofNat 160

/-- Entity table of Python's `html.unescape`, restricted to the common
entities relevant here (`html.unescape` knows the full HTML5 table; each
listed pair is exactly what it produces). -/
def entityTable : List (List Char × Char) :=
  [("amp;".toList, '&'), ("lt;".toList, '<'), ("gt;".toList, '>'),
   ("quot;".toList, '"'), ("#39;".toList, '\''), ("nbsp;".toList, Char.ofNat 160)]

/-- Python's `html.unescape` over the `entityTable` subset: one
left-to-right pass replacing each recognised `&...;` entity, leaving
unrecognised ampersands alone. -/
def htmlUnescape : List Char → List Char
  | [] => []
  | c :: rest =>
    if c = '&' then
      match entityTable.find? (fun e => e.1.isPrefixOf rest) with
      | some e => e.2 :: htmlUnescape (rest.drop e.1.length)
      | none => c :: htmlUnescape rest
    else c :: htmlUnescape rest
termination_by l => l.length
decreasing_by
  · simpa using Nat.lt_succ_of_le (Nat.sub_le rest.length e.1.length)
  · simp
  · simp

/-- Python's `text.split()`: maximal runs of non-whitespace characters,
whitespace-delimited, empties dropped. -/
def splitWs : List Char → List (List Char)
  | [] => []
  | c :: rest =>
    if wsChar c then splitWs rest
    else (c :: rest.takeWhile (fun d => !wsChar d)) ::
         splitWs (rest.dropWhile (fun d => !wsChar d))
termination_by l => l.length
decreasing_by
  · simp
  · have : ∀ (l : List Char), (l.dropWhile (fun d => !wsChar d)).length ≤ l.length := by
      intro l
      induction l with
      | nil => simp
      | cons a t ih =>
        simp only [List.dropWhile]
        split
        · exact Nat.le_succ_of_le ih
        · simp
    simpa using Nat.lt_succ_of_le (this rest)

/-- Python's `" ".join(words)`. -/
def spaceJoin (words : List (List Char)) : List Char :=
  (words.intersperse [' ']).flatten

/-- Embeds `clean_text` (lines 259–265): on a truthy string, unescape
HTML entities then `" ".join(text.split())`; on a falsy (empty) string,
return `""`. -/
def clean_text (t : String) : String :=
  if t = "" then ""
  else ⟨spaceJoin (splitWs (htmlUnescape t.toList))⟩

/-- The regex substitution `re.sub(r'<[^>]+>', ' ', text)` of
`clean_html`: each tag-shaped span becomes one space.  At a `<`, the
regex `<[^>]+>` matches here exactly when the run of non-`>` characters
after the `<` is nonempty and stops before the end of the input (i.e. at
an actual `>`); the scan resumes after that `>`. -/
def stripTags : List Char → List Char
  | [] => []
  | c :: rest =>
    if c = '<' ∧ (rest.takeWhile (fun d => d ≠ '>')).length ≠ 0 ∧
        (rest.takeWhile (fun d => d ≠ '>')).length < rest.length then
      ' ' :: stripTags (rest.drop ((rest.takeWhile (fun d => d ≠ '>')).length + 1))
    else c :: stripTags rest
termination_by l => l.length
decreasing_by
  · simp only [List.length_drop, List.length_cons]
    omega
  · simp

/-- The regex substitution `re.sub(r'\s+', ' ', text)` of `clean_html`:
each whitespace run becomes one space. -/
def collapseWs : List Char → List Char
  | [] => []
  | c :: rest =>
    if wsChar c then ' ' :: collapseWs (rest.dropWhile wsChar)
    else c :: collapseWs rest
termination_by l => l.length
decreasing_by
  · have : ∀ (l : List Char), (l.dropWhile wsChar).length ≤ l.length := by
      intro l
      induction l with
      | nil => simp
      | cons a t ih =>
        simp only [List.dropWhile]
        split
        · exact Nat.le_succ_of_le ih
        · simp
    simpa using Nat.lt_succ_of_le (this rest)
  · simp

/-- Python's `str.strip()` on the character list. -/
def stripEnds (s : List Char) : List Char :=
  ((s.dropWhile wsChar).reverse.dropWhile wsChar).reverse

/-- Embeds `clean_html` (lines 570–580): on a truthy string, strip tag
markup, collapse whitespace runs, strip the ends; on a falsy string,
return `""`.  Note: unlike `clean_text`, no HTML-entity unescaping. -/
def clean_html (t : String) : String :=
  if t = "" then ""
  else ⟨stripEnds (collapseWs (stripTags t.toList))⟩

/-! ### Title composition (`post_process_content`, lines 460–468) -/

/-- Embeds step 5 of `post_process_content` (lines 460–468): the
`if`/`elif` chain combining the recovered title levels, falling back on
the generic `title` field (`content.get("title")`, cleaned) and finally
the empty string.  Python truthiness of a string is `≠ ""`. -/
def composeTitle (level1_title level2_title level3_title generic : String) :
    String :=
  if level1_title ≠ "" ∧ level2_title ≠ "" ∧ level3_title ≠ "" then
    level1_title ++ " > " ++ level2_title ++ " > " ++ level3_title
  else if level1_title ≠ "" ∧ level2_title ≠ "" then
    level1_title ++ " > " ++ level2_title
  else if level3_title ≠ "" then
    level3_title
  else if generic ≠ "" then
    clean_text generic
  else
    ""

/-! ### The per-index attempt loop (`process_index`, lines 625–661) -/

/-- What one call of `crawl_doc_page` can come back with, from the point
of view of the `process_index` retry loop: a truthy processed content
(the call itself wrote the `doc_{index}.json` artifact), the
`{"is_empty_page": True}` marker, `None` (failure), or a raised
exception. -/
inductive CrawlResult where
  | success
  | emptyMarker
  | failureNone
  | exn
  deriving DecidableEq

/-- Terminal state of one page index in the orchestrator. -/
inductive IndexStatus where
  | succeeded
  | emptyConfirmed
  | abandoned
  deriving DecidableEq

/-- Artifact files the pipeline writes for one index: the
`doc_{index}.json` record (written inside `crawl_doc_page` on success)
and the `empty_{index}.json` sentinel (written by `process_index` on the
empty marker). -/
inductive ArtifactWrite where
  | docFile
  | emptyMarkerFile
  deriving DecidableEq

/-- The bound of the attempt loop `for attempt in range(3)` in
`process_index` (line 630). -/
def maxAttempts : Nat := 3

/-- One round of `process_index`'s `for attempt in range(3)` body, driven
by a script giving the outcome of each `crawl_doc_page` call.  Returns
the number of render calls performed, the artifacts written, and the
terminal state.  `a` is the current attempt number, `fuel` the remaining
iterations of the `for`. -/
def attemptLoop (script : Nat → CrawlResult) : Nat → Nat →
    Nat × List ArtifactWrite × IndexStatus
  | _, 0 => (0, [], .abandoned)
  | a, fuel + 1 =>
    match script a with
    | .success => (1, [.docFile], .succeeded)
    | .emptyMarker => (1, [.emptyMarkerFile], .emptyConfirmed)
    | .failureNone =>
        let r := attemptLoop script (a + 1) fuel
        (r.1 + 1, r.2.1, r.2.2)
    | .exn =>
        let r := attemptLoop script (a + 1) fuel
        (r.1 + 1, r.2.1, r.2.2)

/-- Embeds `process_index` (lines 625–661): run the attempt loop from
attempt 0 with the `range(3)` bound. -/
def process_index (script : Nat → CrawlResult) :
    Nat × List ArtifactWrite × IndexStatus :=
  attemptLoop script 0 maxAttempts

/-! ### JSON values and the housekeeping sweep
(`cleanup_empty_files`, lines 716–753) -/

/-- JSON values, the shape `json.load` produces. -/
inductive Json where
  | null
  | bool (b : Bool)
  | num (n : Int)
  | str (s : String)
  | arr (elems : List Json)
  | obj (fields : List (String × Json))

/-- Python truthiness of a JSON value (`if not content`). -/
def Json.truthy : Json → Bool
  | .null => false
  | .bool b => b
  | .num n => n != 0
  | .str s => s ≠ ""
  | .arr elems => !elems.isEmpty
  | .obj fields => !fields.isEmpty

/-- Python `dict.get(key)`: `none` when the key is absent. -/
def Json.get : Json → String → Option Json
  | .obj fields, key => fields.lookup key
  | _, _ => none

/-- The error raised by `content[0].get(...)` when `content[0]` is not a
dict: an uncaught `AttributeError` that aborts the whole sweep. -/
inductive CleanErr where
  | attrError
  deriving DecidableEq

/-- Embeds the `is_empty` computation of `cleanup_empty_files`
(lines 729–737) on a parsed file content: `True` when the value is falsy,
an empty list, or a one-element list whose first element has no truthy
`request_params`; `content[0].get` on a non-dict element raises. -/
def is_empty_check (content : Json) : Except CleanErr Bool :=
  if !content.truthy then .ok true
  else match content with
    | .arr elems =>
        if elems.length = 0 then .ok true
        else if elems.length = 1 then
          match elems.head? with
          | some (.obj fields) =>
              .ok (match (Json.obj fields).get "request_params" with
                   | none => true
                   | some v => !v.truthy)
          | some _ => .error .attrError
          | none => .ok false
        else .ok false
    | _ => .ok false

/-- One file of the output directory, as the sweep sees it: its name and
the result of `json.load` on its bytes (`none` models a
`json.JSONDecodeError`). -/
structure DirFile where
  name : String
  parsed : Option Json

/-- Python's `filename.endswith('.json')` as a suffix test on the
character list. -/
def strEndsWith (s suffix : String) : Bool :=
  suffix.toList.isSuffixOf s.toList

/-- Whether `cleanup_empty_files` removes a given file: non-`.json`
names are skipped, unparsable files are removed, parsable ones follow
`is_empty_check`. -/
def fileDecision (f : DirFile) : Except CleanErr Bool :=
  if !strEndsWith f.name ".json" then .ok false
  else match f.parsed with
    | none => .ok true
    | some content => is_empty_check content

/-- Embeds `cleanup_empty_files` (lines 716–753): walk the directory
listing, delete every file the decision marks, return the surviving
directory and the removed count.  An `AttributeError` escapes the
`except` clause and aborts the sweep. -/
def cleanup_empty_files : List DirFile → Except CleanErr (List DirFile × Nat)
  | [] => .ok ([], 0)
  | f :: rest =>
    match fileDecision f with
    | .error e => .error e
    | .ok true =>
        match cleanup_empty_files rest with
        | .error e => .error e
        | .ok (d, n) => .ok (d, n + 1)
    | .ok false =>
        match cleanup_empty_files rest with
        | .error e => .error e
        | .ok (d, n) => .ok (f :: d, n)

/-- Spec-side description (for the refinement statement) of which files
one housekeeping sweep deletes: a `.json` file that is unparsable, or
parses to a falsy value, or to the empty list, or to a one-element list
whose first element's `request_params` is absent or falsy — the title is
not consulted. -/
def specRemoves (f : DirFile) : Bool :=
  strEndsWith f.name ".json" &&
    match f.parsed with
    | none => true
    | some j =>
        !j.truthy ||
        match j with
        | .arr [] => true
        | .arr [Json.obj fields] =>
            !((fields.lookup "request_params").getD .null).truthy
        | _ => false

/-! ### HTML model and parameter-table extraction
(`extract_params_from_table` lines 492–531,
`extract_params_from_table_regex` lines 533–568) -/

/-- An HTML node, as BeautifulSoup's parse tree presents it to the
structural pass: tagged elements carrying a class list and children, or
text.  The raw string the regex pass scans is this tree's rendering. -/
inductive Node where
  | text (s : String)
  | elem (tag : String) (classes : List String) (children : List Node)

mutual

/-- All descendant nodes of one node, in document order. -/
def Node.descendants : Node → List Node
  | .text _ => []
  | .elem _ _ children => nodesWithDescendants children

/-- A node list together with each node's descendants, in document
order (what `soup.select` iterates over for a whole document). -/
def nodesWithDescendants : List Node → List Node
  | [] => []
  | n :: rest => n :: n.descendants ++ nodesWithDescendants rest

end

mutual

/-- BeautifulSoup's `get_text()`: all text of the subtree, concatenated. -/
def Node.getText : Node → List Char
  | .text s => s.toList
  | .elem _ _ children => getTextList children

/-- Concatenated text of a node list. -/
def getTextList : List Node → List Char
  | [] => []
  | n :: rest => n.getText ++ getTextList rest

end

/-- Whether a node is an element with the given tag carrying the given
CSS class (the meaning of a `tag.cls` CSS selector). -/
def matchesSelector (tag cls : String) : Node → Bool
  | .text _ => false
  | .elem t classes _ => t = tag && classes.contains cls

/-- `element.select('tag.cls')`: matching descendants of one node. -/
def selectIn (n : Node) (tag cls : String) : List Node :=
  n.descendants.filter (matchesSelector tag cls)

/-- `soup.select('tag.cls')` over a whole parsed document. -/
def selectDoc (doc : List Node) (tag cls : String) : List Node :=
  (nodesWithDescendants doc).filter (matchesSelector tag cls)

/-- The `class="..."` attribute text of a rendered element. -/
def classAttr (classes : List String) : List Char :=
  if classes.isEmpty then []
  else " class=\"".toList ++ (String.intercalate " " classes).toList ++ ['"']

mutual

/-- Serialisation of a node back to HTML text (the raw string over
which the regex fallback operates). -/
def Node.render : Node → List Char
  | .text s => s.toList
  | .elem tag classes children =>
      '<' :: (tag.toList ++ classAttr classes ++ ['>'] ++
        renderList children ++ ('<' :: '/' :: tag.toList ++ ['>']))

/-- Serialisation of a node list. -/
def renderList : List Node → List Char
  | [] => []
  | n :: rest => n.render ++ renderList rest

end

/-- A field value of an extracted parameter record: the `required`
field is a `bool`, the others are strings. -/
inductive PValue where
  | s (v : String)
  | b (v : Bool)
  deriving DecidableEq

/-- Which table is being extracted (the `table_type` argument). -/
inductive TableKind where
  | request
  | response
  deriving DecidableEq

/-- A parameter record: ordered key/value pairs of a Python dict
literal. -/
abbrev ParamRecord := List (String × PValue)

/-- The localized "required" marker `"必选"` tested by substring match
on the option cell. -/
def requiredMarker : String := "必选"

/-- Record built from one row's cell texts by the structural pass
(lines 504–525): rows with fewer than 3 cells are skipped (`continue`);
`request` rows need ≥ 4 cells, `response` rows ≥ 3; otherwise the row's
`param` stays the empty dict and is not appended. -/
def rowRecordStruct (table_type : TableKind) (cells : List Node) : ParamRecord :=
  if cells.length < 3 then []
  else
    match table_type, cells with
    | .request, c0 :: c1 :: c2 :: c3 :: _ =>
        [("name", .s (clean_text ⟨c0.getText⟩)),
         ("type", .s (clean_text ⟨c1.getText⟩)),
         ("required", .b (containsSub requiredMarker.toList
            (clean_text ⟨c2.getText⟩).toList)),
         ("option", .s (clean_text ⟨c2.getText⟩)),
         ("description", .s (clean_text ⟨c3.getText⟩))]
    | .response, c0 :: c1 :: c2 :: _ =>
        [("name", .s (clean_text ⟨c0.getText⟩)),
         ("type", .s (clean_text ⟨c1.getText⟩)),
         ("description", .s (clean_text ⟨c2.getText⟩))]
    | _, _ => []

/-- `pat.isPrefixOf`-based splitting at the first occurrence of a
(nonempty) literal pattern: `some (before, after)` with `after` the
suffix following the pattern. -/
def breakAt (pat : List Char) : List Char → Option (List Char × List Char)
  | [] => if pat.isEmpty then some ([], []) else none
  | c :: rest =>
      if pat.isPrefixOf (c :: rest) then some ([], (c :: rest).drop pat.length)
      else match breakAt pat rest with
           | some (pre, post) => some (c :: pre, post)
           | none => none

/-- Literal head of the row regex `<tr class="el-table__row[^>]*>`. -/
def rowOpen : List Char := "<tr class=\"el-table__row".toList

/-- Closing literal of the row regex. -/
def trClose : List Char := "</tr>".toList

/-- Literal of the cell regex `<div class="cell">`. -/
def cellOpen : List Char := "<div class=\"cell\">".toList

/-- Closing literal of the cell regex. -/
def divClose : List Char := "</div>".toList

/-- `re.findall(r'<tr class="el-table__row[^>]*>(.*?)</tr>', s, re.DOTALL)`:
find the literal head, skip `[^>]*` up to the first `>`, capture lazily up
to the first `</tr>`, resume after it.  Each match consumes at least one
character, so `s.length` bounds the number of matches (the fuel). -/
def scanRowsF : Nat → List Char → List (List Char)
  | 0, _ => []
  | fuel + 1, s =>
    match breakAt rowOpen s with
    | none => []
    | some (_, rest1) =>
      match breakAt ['>'] rest1 with
      | none => []
      | some (_, rest2) =>
        match breakAt trClose rest2 with
        | none => []
        | some (body, rest3) => body :: scanRowsF fuel rest3

/-- The row scanner at its fuel bound. -/
def scanRows (s : List Char) : List (List Char) := scanRowsF s.length s

/-- `re.findall(r'<div class="cell">(.*?)</div>', row, re.DOTALL)`. -/
def scanCellsF : Nat → List Char → List (List Char)
  | 0, _ => []
  | fuel + 1, s =>
    match breakAt cellOpen s with
    | none => []
    | some (_, rest1) =>
      match breakAt divClose rest1 with
      | none => []
      | some (body, rest2) => body :: scanCellsF fuel rest2

/-- The cell scanner at its fuel bound. -/
def scanCells (s : List Char) : List (List Char) := scanCellsF s.length s

/-- Record built from one row's raw cell fragments by the regex pass
(lines 541–566): same shapes as the structural pass, with `clean_html`
in place of `clean_text` on the raw captured fragments. -/
def rowRecordRegex (table_type : TableKind) (cells : List (List Char)) :
    ParamRecord :=
  if cells.length < 3 then []
  else
    match table_type, cells with
    | .request, c0 :: c1 :: c2 :: c3 :: _ =>
        [("name", .s (clean_html ⟨c0⟩)),
         ("type", .s (clean_html ⟨c1⟩)),
         ("required", .b (containsSub requiredMarker.toList
            (clean_html ⟨c2⟩).toList)),
         ("option", .s (clean_html ⟨c2⟩)),
         ("description", .s (clean_html ⟨c3⟩))]
    | .response, c0 :: c1 :: c2 :: _ =>
        [("name", .s (clean_html ⟨c0⟩)),
         ("type", .s (clean_html ⟨c1⟩)),
         ("description", .s (clean_html ⟨c2⟩))]
    | _, _ => []

/-- Embeds `extract_params_from_table_regex` (lines 533–568) on the raw
HTML string. -/
def extract_params_from_table_regex (table_html : List Char)
    (table_type : TableKind) : List ParamRecord :=
  ((scanRows table_html).map
      (fun row => rowRecordRegex table_type (scanCells row))).filter
    (fun p => !p.isEmpty)

/-- The structural (BeautifulSoup) pass of `extract_params_from_table`
(lines 495–525): rows `tr.el-table__row`, cells `div.cell`. -/
def structParams (tableDoc : List Node) (table_type : TableKind) :
    List ParamRecord :=
  ((selectDoc tableDoc "tr" "el-table__row").map
      (fun row => rowRecordStruct table_type (selectIn row "div" "cell"))).filter
    (fun p => !p.isEmpty)

/-- Embeds `extract_params_from_table` (lines 492–531): the structural
pass, falling back to the regex pass over the same raw HTML (the
rendering of the parsed table) when it produced no records. -/
def extract_params_from_table (tableDoc : List Node)
    (table_type : TableKind) : List ParamRecord :=
  let params := structParams tableDoc table_type
  if params.isEmpty then
    extract_params_from_table_regex (renderList tableDoc) table_type
  else params

/-- The keys of a parameter record, in order. -/
def recordKeys (p : ParamRecord) : List String := p.map Prod.fst

/-- The record shape the spec prescribes per table kind. -/
def expectedKeys : TableKind → List String
  | .request => ["name", "type", "required", "option", "description"]
  | .response => ["name", "type", "description"]

/-! ## Theorems -/

set_option maxRecDepth 4000 in
/-- C8: `generate_indices` deterministically returns exactly 100 keys,
each matching `^[2-5]-[1-5]-[1-5]$`, with no duplicates, enumerating the
Cartesian product of the three ranges in fixed nested order (first range
outermost, third innermost): the key for `(i, j, k)` sits at position
`25·(i−2) + 5·(j−1) + (k−1)`. -/
theorem generate_indices_spec :
    generate_indices.length = 100 ∧
    generate_indices.Nodup ∧
    (∀ s ∈ generate_indices, matchesKey s = true) ∧
    (∀ t : Fin 4 × Fin 5 × Fin 5,
      generate_indices[25 * t.1.val + 5 * t.2.1.val + t.2.2.val]? =
        some (indexKey (t.1.val + 2) (t.2.1.val + 1) (t.2.2.val + 1))) := by
  decide

/-- Witness for C8 at the concrete key `"2-1-1"`. -/
theorem generate_indices_spec_witness :
    "2-1-1" ∈ generate_indices ∧ matchesKey "2-1-1" = true :=
  ⟨by decide, generate_indices_spec.2.2.1 "2-1-1" (by decide)⟩

/-- C3: a page index whose every `crawl_doc_page` call fails (returns
`None` or raises) is attempted exactly `maxAttempts = 3` times
(`for attempt in range(3)`), ends abandoned, and no artifact file is
written for it. -/
theorem process_index_retry_bound (script : Nat → CrawlResult)
    (h : ∀ a, script a = .failureNone ∨ script a = .exn) :
    process_index script = (maxAttempts, [], .abandoned) := by
  have h0 := h 0
  have h1 := h 1
  have h2 := h 2
  rcases h0 with h0 | h0 <;> rcases h1 with h1 | h1 <;> rcases h2 with h2 | h2 <;>
    simp [process_index, maxAttempts, attemptLoop, h0, h1, h2]

/-- Witness for C3: the always-failing script is attempted 3 times,
abandoned, and writes nothing. -/
theorem process_index_retry_bound_witness :
    process_index (fun _ => CrawlResult.failureNone) =
      (maxAttempts, [], .abandoned) :=
  process_index_retry_bound _ (fun _ => Or.inl rfl)

/-- C4: a page index whose first `crawl_doc_page` call reports the empty
page marker gets no second render call and exactly one empty-marker
artifact, ending in the empty-confirmed state. -/
theorem process_index_empty_short_circuit (script : Nat → CrawlResult)
    (h : script 0 = .emptyMarker) :
    process_index script = (1, [.emptyMarkerFile], .emptyConfirmed) := by
  simp [process_index, maxAttempts, attemptLoop, h]

/-- Witness for C4 at the constantly-empty script. -/
theorem process_index_empty_short_circuit_witness :
    process_index (fun _ => CrawlResult.emptyMarker) =
      (1, [.emptyMarkerFile], .emptyConfirmed) :=
  process_index_empty_short_circuit _ rfl

/-- C2 counterexample: with levels `L1 = "A"`, `L2 = ""`, `L3 = "C"` (a
non-empty subset `{L1, L3}`), the composed title is `"C"`, not the
subset composition `"A > C"` the claim requires. -/
theorem composeTitle_counterexample :
    composeTitle "A" "" "C" "" = "C" ∧ ("C" : String) ≠ "A > C" := by
  decide

/-- C2 (amended): the composed title is `"L1 > L2 > L3"` when all three
levels are non-empty, `"L1 > L2"` when exactly the first two are,
`L3` whenever `L3` is non-empty but `L1`, `L2` are not both non-empty
(any lone `L1` or `L2` is discarded), and otherwise the cleaned generic
title field, else the empty string. -/
theorem composeTitle_degrade (l1 l2 l3 g : String) :
    (l1 ≠ "" → l2 ≠ "" → l3 ≠ "" →
        composeTitle l1 l2 l3 g = l1 ++ " > " ++ l2 ++ " > " ++ l3) ∧
    (l1 ≠ "" → l2 ≠ "" → l3 = "" →
        composeTitle l1 l2 l3 g = l1 ++ " > " ++ l2) ∧
    (¬(l1 ≠ "" ∧ l2 ≠ "") → l3 ≠ "" → composeTitle l1 l2 l3 g = l3) ∧
    (¬(l1 ≠ "" ∧ l2 ≠ "") → l3 = "" → g ≠ "" →
        composeTitle l1 l2 l3 g = clean_text g) ∧
    (¬(l1 ≠ "" ∧ l2 ≠ "") → l3 = "" → g = "" →
        composeTitle l1 l2 l3 g = "") := by
  by_cases h1 : l1 = "" <;> by_cases h2 : l2 = "" <;> by_cases h3 : l3 = "" <;>
    by_cases hg : g = "" <;> simp_all [composeTitle]

/-- Witness for C2 (amended) at all-present levels. -/
theorem composeTitle_degrade_witness :
    composeTitle "A" "B" "C" "g" = "A > B > C" :=
  (composeTitle_degrade "A" "B" "C" "g").1 (by decide) (by decide) (by decide)

/-! ### Housekeeping lemmas -/

/-- When the per-file decision returns without raising, it agrees with
the flat spec-side removal predicate. -/
theorem fileDecision_eq_specRemoves {f : DirFile} {b : Bool}
    (h : fileDecision f = .ok b) : specRemoves f = b := by
  obtain ⟨name, parsed⟩ := f
  rcases (by cases strEndsWith name ".json" <;> simp :
      strEndsWith name ".json" = true ∨ strEndsWith name ".json" = false) with hn | hn
  · simp only [fileDecision, hn, Bool.not_true, Bool.false_eq_true, if_false] at h
    cases parsed with
    | none =>
      simp only [Except.ok.injEq] at h
      simp [specRemoves, hn, ← h]
    | some j =>
      simp only [specRemoves, hn, Bool.true_and]
      rcases (by cases j.truthy <;> simp :
          j.truthy = true ∨ j.truthy = false) with ht | ht
      · cases j with
        | arr elems =>
          cases elems with
          | nil => simp [Json.truthy] at ht
          | cons e tl =>
            cases tl with
            | nil =>
              cases e with
              | obj fields =>
                simp only [is_empty_check, ht, Bool.not_true, Bool.false_eq_true,
                  if_false, List.length_cons, List.length_nil, List.head?_cons,
                  Json.get] at h
                norm_num at h
                cases hl : fields.lookup "request_params" with
                | none =>
                  rw [hl] at h
                  simp only [Except.ok.injEq] at h
                  simp [ht, hl, Json.truthy, ← h]
                | some v =>
                  rw [hl] at h
                  simp only [Except.ok.injEq] at h
                  simp [ht, hl, ← h]
              | null =>
                simp [is_empty_check, ht] at h
              | bool bb =>
                simp [is_empty_check, ht] at h
              | num nn =>
                simp [is_empty_check, ht] at h
              | str ss =>
                simp [is_empty_check, ht] at h
              | arr aa =>
                simp [is_empty_check, ht] at h
            | cons e2 tl2 =>
              simp [is_empty_check, ht] at h
              simp [ht, ← h]
        | null => simp [Json.truthy] at ht
        | bool bb =>
          simp only [is_empty_check, ht, Bool.not_true, Bool.false_eq_true,
            if_false, Except.ok.injEq] at h
          simp [ht, ← h]
        | num nn =>
          simp only [is_empty_check, ht, Bool.not_true, Bool.false_eq_true,
            if_false, Except.ok.injEq] at h
          simp [ht, ← h]
        | str ss =>
          simp only [is_empty_check, ht, Bool.not_true, Bool.false_eq_true,
            if_false, Except.ok.injEq] at h
          simp [ht, ← h]
        | obj fields =>
          simp only [is_empty_check, ht, Bool.not_true, Bool.false_eq_true,
            if_false, Except.ok.injEq] at h
          simp [ht, ← h]
      · simp only [is_empty_check, ht, Bool.not_false, if_true, Except.ok.injEq] at h
        simp [ht, ← h]
  · simp only [fileDecision, hn, Bool.not_false, if_true, Except.ok.injEq] at h
    simp [specRemoves, hn, ← h]

/-- A successful sweep keeps exactly the files the spec-side predicate
keeps, and counts exactly the files it removes. -/
theorem cleanup_ok_filter (dir : List DirFile) (d : List DirFile) (n : Nat)
    (h : cleanup_empty_files dir = .ok (d, n)) :
    d = dir.filter (fun f => !specRemoves f) ∧
    n = (dir.filter (fun f => specRemoves f)).length := by
  induction dir generalizing d n with
  | nil =>
    unfold cleanup_empty_files at h
    cases h
    simp
  | cons f rest ih =>
    unfold cleanup_empty_files at h
    cases hd : fileDecision f with
    | error e => rw [hd] at h; cases h
    | ok b =>
      rw [hd] at h
      have hspec := fileDecision_eq_specRemoves hd
      cases b with
      | true =>
        simp only at h
        cases hrec : cleanup_empty_files rest with
        | error e => rw [hrec] at h; cases h
        | ok p =>
          obtain ⟨d0, n0⟩ := p
          rw [hrec] at h
          cases h
          obtain ⟨ihd, ihn⟩ := ih _ _ hrec
          constructor
          · rw [List.filter_cons, hspec]
            simpa using ihd
          · rw [List.filter_cons, hspec]
            simp [ihn]
      | false =>
        simp only at h
        cases hrec : cleanup_empty_files rest with
        | error e => rw [hrec] at h; cases h
        | ok p =>
          obtain ⟨d0, n0⟩ := p
          rw [hrec] at h
          cases h
          obtain ⟨ihd, ihn⟩ := ih _ _ hrec
          constructor
          · rw [List.filter_cons, hspec]
            simpa using ihd
          · rw [List.filter_cons, hspec]
            simpa using ihn

/-- In a successful sweep every listed file's decision returned without
raising. -/
theorem cleanup_ok_decision (dir : List DirFile) (r : List DirFile × Nat)
    (h : cleanup_empty_files dir = .ok r) :
    ∀ f ∈ dir, ∃ b, fileDecision f = .ok b := by
  induction dir generalizing r with
  | nil => intro f hf; cases hf
  | cons g rest ih =>
    intro f hf
    unfold cleanup_empty_files at h
    cases hd : fileDecision g with
    | error e => rw [hd] at h; cases h
    | ok b =>
      rw [hd] at h
      rcases List.mem_cons.mp hf with rfl | hmem
      · exact ⟨b, hd⟩
      · cases b <;> simp only at h <;>
          (cases hrec : cleanup_empty_files rest with
           | error e => rw [hrec] at h; cases h
           | ok p => exact ih p hrec f hmem)

/-- A directory in which every file's decision is a clean "keep" is left
untouched with zero removals. -/
theorem cleanup_all_keep (l : List DirFile)
    (h : ∀ f ∈ l, fileDecision f = .ok false) :
    cleanup_empty_files l = .ok (l, 0) := by
  induction l with
  | nil => rfl
  | cons f rest ih =>
    unfold cleanup_empty_files
    rw [h f (List.mem_cons_self f rest)]
    rw [ih (fun g hg => h g (List.mem_cons_of_mem f hg))]

/-- C1 counterexample: a parsable artifact whose record has a non-empty
(truthy) title `"Foo"` and even non-empty `response_params`, but empty
`request_params`, is removed by the sweep — the claim requires it to be
kept. -/
theorem cleanup_keeps_titled_counterexample :
    cleanup_empty_files
      [⟨"doc_2-1-1.json",
        some (.arr [.obj [("title", .str "Foo"),
                          ("request_params", .arr []),
                          ("response_params", .arr [.obj [("name", .str "date")]]),
                          ("python_example", .str "import requests")]])⟩] =
      .ok ([], 1) ∧
    (Json.str "Foo").truthy = true :=
  ⟨rfl, rfl⟩

/-- C1 (amended): a successful housekeeping sweep deletes exactly the
`.json` files that are unparsable, or parse to a falsy value, or to the
empty list, or to a one-element list whose first element's
`request_params` is absent or falsy (`specRemoves`); the title is never
consulted.  All other files are kept, and the removed count is the
number of deleted files. -/
theorem cleanup_empty_files_removes_iff (dir d : List DirFile) (n : Nat)
    (h : cleanup_empty_files dir = .ok (d, n)) :
    d = dir.filter (fun f => !specRemoves f) ∧
    n = (dir.filter (fun f => specRemoves f)).length :=
  cleanup_ok_filter dir d n h

/-- Witness for C1 (amended) on a two-file directory: the unparsable
file goes, the non-empty object file stays. -/
theorem cleanup_empty_files_removes_iff_witness :
    ([⟨"keep.json", some (.obj [("a", .str "b")])⟩] : List DirFile) =
      ([⟨"bad.json", none⟩, ⟨"keep.json", some (.obj [("a", .str "b")])⟩].filter
        (fun f => !specRemoves f)) ∧
    1 = ([(⟨"bad.json", none⟩ : DirFile),
          ⟨"keep.json", some (.obj [("a", .str "b")])⟩].filter
        (fun f => specRemoves f)).length :=
  cleanup_empty_files_removes_iff
    [⟨"bad.json", none⟩, ⟨"keep.json", some (.obj [("a", .str "b")])⟩]
    [⟨"keep.json", some (.obj [("a", .str "b")])⟩] 1 rfl

/-- C7: the housekeeping sweep is idempotent — immediately re-running it
on the directory a successful run leaves behind removes zero files and
changes nothing. -/
theorem cleanup_empty_files_idempotent (dir d : List DirFile) (n : Nat)
    (h : cleanup_empty_files dir = .ok (d, n)) :
    cleanup_empty_files d = .ok (d, 0) := by
  apply cleanup_all_keep
  intro f hf
  have hd := cleanup_ok_filter dir d n h
  have hmem : f ∈ dir := by
    rw [hd.1] at hf
    exact (List.mem_filter.mp hf).1
  have hspecf : specRemoves f = false := by
    rw [hd.1] at hf
    simpa using (List.mem_filter.mp hf).2
  obtain ⟨b, hb⟩ := cleanup_ok_decision dir _ h f hmem
  have hbf : b = false := by
    rw [← fileDecision_eq_specRemoves hb, hspecf]
  rw [hbf] at hb
  exact hb

/-- Witness for C7: the second sweep after a removing first sweep
removes nothing. -/
theorem cleanup_empty_files_idempotent_witness :
    cleanup_empty_files
      [⟨"doc_3-1-1.json", some (.arr [.obj [("request_params",
          .arr [.obj [("name", .str "token")]])]])⟩] =
      .ok ([⟨"doc_3-1-1.json", some (.arr [.obj [("request_params",
          .arr [.obj [("name", .str "token")]])]])⟩], 0) :=
  cleanup_empty_files_idempotent
    [⟨"doc_3-2-1.json", some (.arr [])⟩,
     ⟨"doc_3-1-1.json", some (.arr [.obj [("request_params",
         .arr [.obj [("name", .str "token")]])]])⟩]
    [⟨"doc_3-1-1.json", some (.arr [.obj [("request_params",
        .arr [.obj [("name", .str "token")]])]])⟩] 1 rfl

/-- C10: a file parsing to a non-empty JSON object (in particular the
empty-page sentinel `{index, status, checked_time}`) is never deleted by
the housekeeping sweep. -/
theorem sentinel_survives_sweep (dir d : List DirFile) (n : Nat)
    (f : DirFile) (fields : List (String × Json))
    (hrun : cleanup_empty_files dir = .ok (d, n)) (hmem : f ∈ dir)
    (hobj : f.parsed = some (.obj fields)) (hne : fields ≠ []) :
    f ∈ d := by
  have hd := cleanup_ok_filter dir d n hrun
  rw [hd.1]
  apply List.mem_filter.mpr
  refine ⟨hmem, ?_⟩
  have hsp : specRemoves f = false := by
    unfold specRemoves
    rw [hobj]
    cases hn : strEndsWith f.name ".json"
    · simp
    · simp [Json.truthy, List.isEmpty_eq_true, hne]
  simp [hsp]

/-- Witness for C10: the empty-page sentinel artifact survives a sweep
that removes a malformed neighbour. -/
theorem sentinel_survives_sweep_witness :
    (⟨"empty_2-1-1.json", some (.obj [("index", .str "2-1-1"),
        ("status", .str "empty"),
        ("checked_time", .str "2025-01-01 00:00:00")])⟩ : DirFile) ∈
      ([⟨"empty_2-1-1.json", some (.obj [("index", .str "2-1-1"),
          ("status", .str "empty"),
          ("checked_time", .str "2025-01-01 00:00:00")])⟩] : List DirFile) :=
  sentinel_survives_sweep
    [⟨"doc_9-9-9.json", none⟩,
     ⟨"empty_2-1-1.json", some (.obj [("index", .str "2-1-1"),
        ("status", .str "empty"),
        ("checked_time", .str "2025-01-01 00:00:00")])⟩]
    [⟨"empty_2-1-1.json", some (.obj [("index", .str "2-1-1"),
        ("status", .str "empty"),
        ("checked_time", .str "2025-01-01 00:00:00")])⟩] 1
    _ _ rfl (by simp) rfl (by simp)

/-- C6: an unsuccessful render is classified as an empty page exactly
when its error message contains (case-insensitively) one of the
keywords 404 / not found / empty / timeout / wait condition failed;
otherwise it is a retryable failure. -/
theorem classifyUnsuccessful_emptyPage_iff (em : Option String) :
    classifyUnsuccessful em = .emptyPage ↔
      ∃ m, em = some m ∧ ∃ kw ∈ emptyKeywords,
        containsSub kw.toList (lowerStr m).toList = true := by
  cases em with
  | none => simp [classifyUnsuccessful]
  | some m =>
    simp only [classifyUnsuccessful, Option.some.injEq]
    constructor
    · intro hcl
      split_ifs at hcl with hif
      · have hany := ((Bool.and_eq_true _ _).mp hif).2
        obtain ⟨kw, hkw, hsub⟩ := List.any_eq_true.mp hany
        exact ⟨m, rfl, kw, hkw, hsub⟩
    · rintro ⟨m', rfl, kw, hkw, hsub⟩
      have hm0 : m ≠ "" := by
        intro h0
        subst h0
        fin_cases hkw <;> simp [containsSub, lowerStr] at hsub
      have hcond : (decide (m ≠ "") &&
          emptyKeywords.any fun kw =>
            containsSub kw.toList (lowerStr m).toList) = true := by
        rw [Bool.and_eq_true]
        exact ⟨decide_eq_true hm0, List.any_eq_true.mpr ⟨kw, hkw, hsub⟩⟩
      rw [if_pos hcond]

/-- Witness for C6: a lowercased "timeout" message classifies as empty,
via the equivalence. -/
theorem classifyUnsuccessful_emptyPage_iff_witness :
    classifyUnsuccessful (some "Page.goto: Timeout 30000ms exceeded") =
      .emptyPage :=
  (classifyUnsuccessful_emptyPage_iff
      (some "Page.goto: Timeout 30000ms exceeded")).mpr
    ⟨"Page.goto: Timeout 30000ms exceeded", rfl, "timeout", by decide, by decide⟩

/-! ### Parameter-table extraction lemmas -/

/-- A structural-pass row record is empty (skipped) or has exactly the
prescribed key shape for its kind. -/
theorem rowRecordStruct_shape (k : TableKind) (cells : List Node) :
    rowRecordStruct k cells = [] ∨
      recordKeys (rowRecordStruct k cells) = expectedKeys k := by
  cases k <;>
    rcases cells with _ | ⟨c0, _ | ⟨c1, _ | ⟨c2, _ | ⟨c3, rest⟩⟩⟩⟩ <;>
    simp [rowRecordStruct, recordKeys, expectedKeys] <;>
    rw [if_neg (by omega)] <;> simp

/-- A regex-pass row record is empty (skipped) or has exactly the
prescribed key shape for its kind. -/
theorem rowRecordRegex_shape (k : TableKind) (cells : List (List Char)) :
    rowRecordRegex k cells = [] ∨
      recordKeys (rowRecordRegex k cells) = expectedKeys k := by
  cases k <;>
    rcases cells with _ | ⟨c0, _ | ⟨c1, _ | ⟨c2, _ | ⟨c3, rest⟩⟩⟩⟩ <;>
    simp [rowRecordRegex, recordKeys, expectedKeys] <;>
    rw [if_neg (by omega)] <;> simp

/-- C5: the regex fallback runs exactly when the structural pass yields
zero records, and every record either pass contributes to the final
extraction has the same key shape — `{name, type, required, option,
description}` for request tables, `{name, type, description}` for
response tables. -/
theorem extract_params_fallback_and_shape (tableDoc : List Node)
    (kind : TableKind) :
    (structParams tableDoc kind ≠ [] →
        extract_params_from_table tableDoc kind = structParams tableDoc kind) ∧
    (structParams tableDoc kind = [] →
        extract_params_from_table tableDoc kind =
          extract_params_from_table_regex (renderList tableDoc) kind) ∧
    (∀ p ∈ extract_params_from_table tableDoc kind,
        recordKeys p = expectedKeys kind) := by
  refine ⟨?_, ?_, ?_⟩
  · intro hne
    unfold extract_params_from_table
    rw [if_neg]
    simpa [List.isEmpty_iff] using hne
  · intro he
    unfold extract_params_from_table
    rw [if_pos]
    simpa [List.isEmpty_iff] using he
  · intro p hp
    simp only [extract_params_from_table] at hp
    split_ifs at hp with hst
    · unfold extract_params_from_table_regex at hp
      obtain ⟨hmem, hne⟩ := List.mem_filter.mp hp
      obtain ⟨row, _, rfl⟩ := List.mem_map.mp hmem
      rcases rowRecordRegex_shape kind (scanCells row) with h0 | h0
      · rw [h0] at hne
        simp at hne
      · exact h0
    · unfold structParams at hp
      obtain ⟨hmem, hne⟩ := List.mem_filter.mp hp
      obtain ⟨row, _, rfl⟩ := List.mem_map.mp hmem
      rcases rowRecordStruct_shape kind (selectIn row "div" "cell") with h0 | h0
      · rw [h0] at hne
        simp at hne
      · exact h0

theorem extract_params_fallback_and_shape_witness :
    extract_params_from_table
      [Node.elem "tr" ["el-table__row"]
        [Node.elem "div" ["cell"] [Node.text "token"],
         Node.elem "div" ["cell"] [Node.text "string"],
         Node.elem "div" ["cell"] [Node.text "必选"],
         Node.elem "div" ["cell"] [Node.text "API key"]]] .request =
      structParams
        [Node.elem "tr" ["el-table__row"]
          [Node.elem "div" ["cell"] [Node.text "token"],
           Node.elem "div" ["cell"] [Node.text "string"],
           Node.elem "div" ["cell"] [Node.text "必选"],
           Node.elem "div" ["cell"] [Node.text "API key"]]] .request :=
  (extract_params_fallback_and_shape _ .request).1 (by
    simp [structParams, selectDoc, nodesWithDescendants, Node.descendants,
      selectIn, matchesSelector, rowRecordStruct])

/-! ### Whitespace-normalisation lemmas -/

/-- `splitWs` ignores leading whitespace. -/
theorem splitWs_dropWhile (y : List Char) :
    splitWs (y.dropWhile wsChar) = splitWs y := by
  induction y with
  | nil => rfl
  | cons d t ih =>
    by_cases hd : wsChar d
    · rw [show (d :: t).dropWhile wsChar = t.dropWhile wsChar from by
        simp [List.dropWhile, hd]]
      rw [ih]
      rw [show splitWs (d :: t) = splitWs t from by
        rw [splitWs]
        simp [hd]]
    · rw [show (d :: t).dropWhile wsChar = d :: t from by
        simp [List.dropWhile, hd]]

/-- `collapseWs` passes a whitespace-free prefix through unchanged. -/
theorem collapseWs_append_word (w x : List Char)
    (hw : ∀ c ∈ w, wsChar c = false) :
    collapseWs (w ++ x) = w ++ collapseWs x := by
  induction w with
  | nil => rfl
  | cons c w' ih =>
    have hc : wsChar c = false := hw c (by simp)
    rw [List.cons_append]
    rw [show collapseWs (c :: (w' ++ x)) = c :: collapseWs (w' ++ x) from by
      rw [collapseWs]
      simp [hc]]
    rw [ih (fun d hd => hw d (by simp [hd]))]
    rfl

/-- Dropping whitespace through an append whose right part is
whitespace-free stops no later than the boundary. -/
theorem dropWhile_append_keep (u v : List Char)
    (hv : ∀ c ∈ v, wsChar c = false) :
    (u ++ v).dropWhile wsChar = u.dropWhile wsChar ++ v := by
  induction u with
  | nil =>
    cases v with
    | nil => rfl
    | cons e s =>
      have he : wsChar e = false := hv e (by simp)
      simp [List.dropWhile, he]
  | cons a u' ih =>
    by_cases ha : wsChar a
    · simp only [List.cons_append, List.dropWhile, ha]
      exact ih
    · simp only [List.cons_append, List.dropWhile]
      simp [ha]

/-- Right-stripping passes a whitespace-free prefix through unchanged. -/
theorem rstrip_append_word (w z : List Char)
    (hw : ∀ c ∈ w, wsChar c = false) :
    ((w ++ z).reverse.dropWhile wsChar).reverse =
      w ++ (z.reverse.dropWhile wsChar).reverse := by
  rw [List.reverse_append]
  rw [dropWhile_append_keep z.reverse w.reverse
    (fun c hc => hw c (List.mem_reverse.mp hc))]
  rw [List.reverse_append, List.reverse_reverse]

/-- Dropping whitespace through an append with a single-space right part. -/
theorem dropWhile_append_space (u : List Char) :
    (u ++ [' ']).dropWhile wsChar =
      if (u.dropWhile wsChar).isEmpty then []
      else u.dropWhile wsChar ++ [' '] := by
  induction u with
  | nil => simp [List.dropWhile, wsChar]
  | cons a u' ih =>
    by_cases ha : wsChar a
    · simp only [List.cons_append, List.dropWhile, ha, if_true]
      exact ih
    · simp [List.dropWhile, ha]

/-- Right-stripping a string with one space prepended. -/
theorem rstrip_space_cons (z : List Char) :
    ((' ' :: z).reverse.dropWhile wsChar).reverse =
      if ((z.reverse.dropWhile wsChar).reverse).isEmpty then []
      else ' ' :: (z.reverse.dropWhile wsChar).reverse := by
  rw [show (' ' :: z).reverse = z.reverse ++ [' '] from by simp]
  rw [dropWhile_append_space z.reverse]
  by_cases h : (z.reverse.dropWhile wsChar).isEmpty
  · have h2 : ((z.reverse.dropWhile wsChar).reverse).isEmpty = true := by
      rw [List.isEmpty_iff] at h ⊢
      simp [h]
    rw [if_pos h, if_pos h2]
    rfl
  · have h2 : ¬((z.reverse.dropWhile wsChar).reverse).isEmpty = true := by
      rw [List.isEmpty_iff] at h ⊢
      simpa using h
    rw [if_neg h, if_neg h2]
    simp

/-- Stripping both ends ignores one leading space. -/
theorem stripEnds_space_cons (z : List Char) :
    stripEnds (' ' :: z) = stripEnds z := by
  unfold stripEnds
  rw [show (' ' :: z).dropWhile wsChar = z.dropWhile wsChar from by
    simp [List.dropWhile, wsChar]]

/-- `spaceJoin` unfolded on a cons. -/
theorem spaceJoin_cons (w : List Char) (l : List (List Char)) :
    spaceJoin (w :: l) = w ++ (if l.isEmpty then [] else ' ' :: spaceJoin l) := by
  cases l with
  | nil => simp [spaceJoin]
  | cons w2 l2 => simp [spaceJoin, List.intersperse]

/-- The head surviving a `dropWhile` does not satisfy the predicate. -/
theorem dropWhile_head_not (p : Char → Bool) (y : List Char) (e : Char)
    (s : List Char) (h : y.dropWhile p = e :: s) : p e = false := by
  induction y with
  | nil => cases h
  | cons a t ih =>
    by_cases ha : p a
    · rw [show (a :: t).dropWhile p = t.dropWhile p from by
        simp [List.dropWhile, ha]] at h
      exact ih h
    · rw [show (a :: t).dropWhile p = a :: t from by
        simp [List.dropWhile, ha]] at h
      cases h
      simpa using ha

/-- Every word produced by `splitWs` is nonempty and whitespace-free. -/
theorem splitWs_words (x : List Char) :
    ∀ w ∈ splitWs x, w ≠ [] ∧ ∀ c ∈ w, wsChar c = false := by
  induction x using splitWs.induct with
  | case1 =>
    intro w hw
    rw [show splitWs [] = [] from by rw [splitWs]] at hw
    cases hw
  | case2 c rest hc ih =>
    intro w hw
    rw [show splitWs (c :: rest) = splitWs rest from by
      rw [splitWs]; simp [hc]] at hw
    exact ih w hw
  | case3 c rest hc ih =>
    intro w hw
    rw [show splitWs (c :: rest) =
        (c :: rest.takeWhile (fun d => !wsChar d)) ::
          splitWs (rest.dropWhile (fun d => !wsChar d)) from by
      rw [splitWs]; simp [hc]] at hw
    rcases List.mem_cons.mp hw with rfl | hmem
    · refine ⟨by simp, ?_⟩
      intro d hd
      rcases List.mem_cons.mp hd with rfl | hd2
      · simpa using hc
      · have := List.mem_takeWhile_imp hd2
        simpa using this
    · exact ih w hmem

/-- Joining nonempty words gives the empty string only for no words. -/
theorem spaceJoin_eq_nil_iff (l : List (List Char))
    (h : ∀ w ∈ l, w ≠ []) : spaceJoin l = [] ↔ l = [] := by
  cases l with
  | nil => simp [spaceJoin]
  | cons w l' =>
    rw [spaceJoin_cons]
    constructor
    · intro he
      have hw := h w (by simp)
      rcases List.append_eq_nil.mp he with ⟨hw0, _⟩
      exact absurd hw0 hw
    · intro he
      cases he

/-- Collapsing after a leading-whitespace drop starts non-whitespace, so
a further leading drop is a no-op. -/
theorem lstrip_collapse_drop (t : List Char) :
    (collapseWs (t.dropWhile wsChar)).dropWhile wsChar =
      collapseWs (t.dropWhile wsChar) := by
  cases h : t.dropWhile wsChar with
  | nil => rw [show collapseWs [] = [] from by rw [collapseWs]]; rfl
  | cons e s =>
    have he := dropWhile_head_not wsChar t e s h
    rw [show collapseWs (e :: s) = e :: collapseWs s from by
      rw [collapseWs]; simp [he]]
    simp [List.dropWhile, he]

/-- Leading whitespace does not affect the collapse-and-strip result. -/
theorem stripEnds_collapse_drop (y : List Char) :
    stripEnds (collapseWs (y.dropWhile wsChar)) = stripEnds (collapseWs y) := by
  cases y with
  | nil => rfl
  | cons d t =>
    by_cases hd : wsChar d
    · rw [show (d :: t).dropWhile wsChar = t.dropWhile wsChar from by
        simp [List.dropWhile, hd]]
      rw [show collapseWs (d :: t) = ' ' :: collapseWs (t.dropWhile wsChar) from by
        rw [collapseWs]; simp [hd]]
      rw [stripEnds_space_cons]
    · rw [show (d :: t).dropWhile wsChar = d :: t from by
        simp [List.dropWhile, hd]]

/-- Collapsing whitespace runs and stripping the ends is exactly joining
the whitespace-separated words with single spaces. -/
theorem stripEnds_collapseWs_eq (x : List Char) :
    stripEnds (collapseWs x) = spaceJoin (splitWs x) := by
  induction x using splitWs.induct with
  | case1 =>
    rw [show collapseWs [] = [] from by rw [collapseWs],
        show splitWs [] = [] from by rw [splitWs]]
    rfl
  | case2 c rest hc ih =>
    rw [show collapseWs (c :: rest) = ' ' :: collapseWs (rest.dropWhile wsChar) from by
      rw [collapseWs]; simp [hc]]
    rw [stripEnds_space_cons]
    rw [stripEnds_collapse_drop]
    rw [ih]
    rw [show splitWs (c :: rest) = splitWs rest from by rw [splitWs]; simp [hc]]
  | case3 c rest hc ih =>
    have hcfalse : wsChar c = false := by simpa using hc
    have hsplit : splitWs (c :: rest) =
        (c :: rest.takeWhile (fun d => !wsChar d)) ::
          splitWs (rest.dropWhile (fun d => !wsChar d)) := by
      rw [splitWs]
      simp [hc]
    have hwordfree : ∀ d ∈ (c :: rest.takeWhile (fun d => !wsChar d)),
        wsChar d = false := by
      intro d hd
      rcases List.mem_cons.mp hd with rfl | hd2
      · exact hcfalse
      · simpa using List.mem_takeWhile_imp hd2
    have hdecomp : c :: rest =
        (c :: rest.takeWhile (fun d => !wsChar d)) ++
          rest.dropWhile (fun d => !wsChar d) := by
      rw [List.cons_append, List.takeWhile_append_dropWhile]
    have hcollapse : collapseWs (c :: rest) =
        (c :: rest.takeWhile (fun d => !wsChar d)) ++
          collapseWs (rest.dropWhile (fun d => !wsChar d)) := by
      conv_lhs => rw [hdecomp]
      exact collapseWs_append_word _ _ hwordfree
    have hlstrip : ((c :: rest.takeWhile (fun d => !wsChar d)) ++
        collapseWs (rest.dropWhile (fun d => !wsChar d))).dropWhile wsChar =
        (c :: rest.takeWhile (fun d => !wsChar d)) ++
          collapseWs (rest.dropWhile (fun d => !wsChar d)) := by
      rw [List.cons_append]
      simp [List.dropWhile, hcfalse]
    have hstrip : stripEnds ((c :: rest.takeWhile (fun d => !wsChar d)) ++
        collapseWs (rest.dropWhile (fun d => !wsChar d))) =
        (c :: rest.takeWhile (fun d => !wsChar d)) ++
          ((collapseWs (rest.dropWhile (fun d => !wsChar d))).reverse.dropWhile
            wsChar).reverse := by
      unfold stripEnds
      rw [hlstrip]
      exact rstrip_append_word _ _ hwordfree
    rw [hsplit, spaceJoin_cons, hcollapse, hstrip]
    congr 1
    cases hx2 : rest.dropWhile (fun d => !wsChar d) with
    | nil =>
      rw [show collapseWs [] = [] from by rw [collapseWs],
          show splitWs [] = [] from by rw [splitWs]]
      rfl
    | cons d t =>
      have hd : wsChar d = true := by
        have := dropWhile_head_not (fun d => !wsChar d) rest d t hx2
        simpa using this
      rw [hx2] at ih
      have hcol : collapseWs (d :: t) = ' ' :: collapseWs (t.dropWhile wsChar) := by
        rw [collapseWs]
        simp [hd]
      have hihz : ((collapseWs (t.dropWhile wsChar)).reverse.dropWhile
          wsChar).reverse = spaceJoin (splitWs (d :: t)) := by
        rw [hcol, stripEnds_space_cons] at ih
        unfold stripEnds at ih
        rw [lstrip_collapse_drop t] at ih
        exact ih
      rw [hcol, rstrip_space_cons, hihz]
      have hwords := splitWs_words (d :: t)
      have hiff : spaceJoin (splitWs (d :: t)) = [] ↔ splitWs (d :: t) = [] :=
        spaceJoin_eq_nil_iff _ (fun w hw => (hwords w hw).1)
      by_cases hsp : splitWs (d :: t) = []
      · rw [hsp]
        rw [show spaceJoin [] = [] from rfl]
        rfl
      · have hne : spaceJoin (splitWs (d :: t)) ≠ [] := fun he => hsp (hiff.mp he)
        rw [if_neg (by simpa [List.isEmpty_iff] using hne),
            if_neg (by simpa [List.isEmpty_iff] using hsp)]

/-- C9 counterexample: `clean_html` does not unescape HTML entities —
`"a &amp; b"` passes through unchanged, while `clean_text` (which the
claim says `clean_html` mirrors plus tag-stripping) unescapes it. -/
theorem clean_html_no_unescape_counterexample :
    clean_html "a &amp; b" = "a &amp; b" ∧
    clean_text "a &amp; b" = "a & b" ∧
    ("a &amp; b" : String) ≠ "a & b" := by
  refine ⟨?_, ?_, by decide⟩
  · simp [clean_html, stripTags, collapseWs, stripEnds, wsChar]
  · simp [clean_text, htmlUnescape, splitWs, spaceJoin, entityTable, wsChar]

/-- C9 (amended): `clean_text` unescapes HTML entities, then collapses
every whitespace run to a single space and trims (its output is exactly
the single-space join of the whitespace-separated words of the unescaped
input); `clean_html` strips tag markup and then collapses and trims in
the same way, but performs no entity unescaping.  Both map the empty
string to the empty string (the `t = ""` instance of the equations). -/
theorem clean_text_clean_html_normalize (t : String) :
    (clean_text t).toList = spaceJoin (splitWs (htmlUnescape t.toList)) ∧
    (clean_html t).toList = spaceJoin (splitWs (stripTags t.toList)) := by
  constructor
  · by_cases ht : t = ""
    · subst ht
      rw [show ("" : String).toList = [] from rfl]
      rw [show htmlUnescape [] = [] from by rw [htmlUnescape],
          show splitWs [] = [] from by rw [splitWs]]
      rfl
    · simp only [clean_text, if_neg ht]
      rfl
  · by_cases ht : t = ""
    · subst ht
      rw [show ("" : String).toList = [] from rfl]
      rw [show stripTags [] = [] from by rw [stripTags],
          show splitWs [] = [] from by rw [splitWs]]
      rfl
    · simp only [clean_html, if_neg ht]
      rw [show (⟨stripEnds (collapseWs (stripTags t.toList))⟩ : String).toList =
            stripEnds (collapseWs (stripTags t.toList)) from rfl]
      exact stripEnds_collapseWs_eq _

end Crawler
